import Mathlib

/-!
Verification of the pipeline monitoring core of
`src/sde_takehome/baseline_pipeline_monitor.py`.

Shallow embedding conventions:
* timestamps are integers (seconds since an arbitrary epoch); Python
  `(t2 - t1).total_seconds()` becomes integer subtraction, `timedelta(days=d)`
  becomes `d * 86400`, and a calendar date becomes the floor-division
  `t / 86400` (the source's timezone plumbing has no observable effect on the
  claims and is not modelled);
* Python floats over integer data are embedded as exact rationals (`ℚ`);
* the z-score comparison `abs(x - mean)/stdev > c` (with
  `stdev = sqrt(variance)`) is embedded by the equivalent squared comparison
  `c^2 * variance < (x - mean)^2`, exact whenever `c ≥ 0` and `variance > 0`
  (the program only compares against the constants 2 and 3); the bridge to the
  real-valued z-score is proved, not assumed;
* alert message strings are embedded as a structured datatype carrying the
  numeric payloads that the Python f-strings interpolate (the z-score is
  carried as its square, which determines it); equality of payloads models
  equality of the formatted text;
* Python dicts with insertion-order iteration (`pipeline_metrics`,
  `team_metrics`, the per-day grouping) are embedded as association lists
  updated in place and extended at the end, matching dict semantics;
  `alert_history` (a `defaultdict(list)` only ever accessed pointwise) is
  embedded as a total function from pipeline id to alert list.
-/

/-- `PipelineStatus` enum of the source, including the catch-all `UNKNOWN`. -/
inductive PipelineStatus where
  | running
  | success
  | failed
  | cancelled
  | timeout
  | unknown
deriving DecidableEq, Repr

/-- `AlertSeverity` enum of the source. -/
inductive AlertSeverity where
  | low
  | medium
  | high
  | critical
deriving DecidableEq, Repr

/-- Structured embedding of the alert message strings built by
`detect_anomalies`; each constructor carries the numeric values interpolated
into the corresponding f-string (for the duration alert, the z-score is
carried as its square together with the latest duration). -/
inductive Msg where
  | lowSuccessRate (rate : ℚ)
  | abnormalDuration (latest : Int) (zsq : ℚ)
  | throughputDrop (dropPct : ℚ)
  | repeatedFailures (count : Nat)
  | reportDelayed (avgHours : ℚ)
  | missingReport (hoursSince : ℚ)
deriving DecidableEq, Repr

/-- The `Alert` class: pipeline id, severity, message, team, timestamp. -/
structure Alert where
  pipeline_id : String
  severity : AlertSeverity
  message : Msg
  team : String
  timestamp : Int
deriving DecidableEq, Repr

/-- `PipelineStatus(status)` with the `ValueError → UNKNOWN` fallback of
`PipelineExecution.__init__`. -/
def parseStatus (s : String) : PipelineStatus :=
  if s = "RUNNING" then .running
  else if s = "SUCCESS" then .success
  else if s = "FAILED" then .failed
  else if s = "CANCELLED" then .cancelled
  else if s = "TIMEOUT" then .timeout
  else .unknown

/-- The `PipelineExecution` record (status already parsed; `duration` and
`records_processed` already defaulted to 0 when absent, as in `__init__`). -/
structure Execution where
  execution_id : String
  pipeline_id : String
  status : PipelineStatus
  start_time : Int
  end_time : Option Int
  duration : Int
  records_processed : Int
  team : String
deriving DecidableEq, Repr

/-- The `anomaly_thresholds` dict set in `PipelineMonitor.__init__`. -/
structure AnomalyThresholds where
  successRate : ℚ
  durationStdDev : ℚ
  throughputDecrease : ℚ
deriving DecidableEq, Repr

/-- `{'success_rate': 80, 'duration_std_dev': 2, 'throughput_decrease': 50}` —
fixed at construction, never mutated. -/
def defaultThresholds : AnomalyThresholds :=
  { successRate := 80, durationStdDev := 2, throughputDecrease := 50 }

/-- One entry of `pipeline_metrics`. -/
structure Metrics where
  total_executions : Nat
  successful_executions : Nat
  failed_executions : Nat
  avg_duration : ℚ
  avg_records_processed : ℚ
  last_execution : Option Int
  team : String
  durations : List Int
  records_processed_history : List Int
  status_history : List PipelineStatus
  execution_times : List Int
deriving DecidableEq, Repr

/-- The defaultdict initializer for a fresh `pipeline_metrics` entry (the
source initializes `team` to `None`; it is overwritten by the first record
before any read, so it is embedded as the empty string). -/
def Metrics.base : Metrics :=
  { total_executions := 0
    successful_executions := 0
    failed_executions := 0
    avg_duration := 0
    avg_records_processed := 0
    last_execution := none
    team := ""
    durations := []
    records_processed_history := []
    status_history := []
    execution_times := [] }

/-- Arithmetic mean of a list of rationals (`statistics.mean`; the source only
evaluates it on non-empty lists). -/
def listMean (l : List ℚ) : ℚ := l.sum / l.length

/-- `lst.append(x)` followed by `if len(lst) > 100: lst.pop(0)` — the window
update of `_update_pipeline_metrics` (`MAX_HISTORY = 100`). -/
def pushWindow {α : Type} (w : List α) (x : α) : List α :=
  let w' := w ++ [x]
  if 100 < w'.length then w'.drop 1 else w'

/-- The last `n` elements of a list, i.e. Python `lst[-n:]`. -/
def lastN {α : Type} (n : Nat) (l : List α) : List α := l.drop (l.length - n)

/-- Association-list lookup (dict read by key). -/
def alookup {β : Type} (k : String) : List (String × β) → Option β
  | [] => none
  | (k', v) :: rest => if k' = k then some v else alookup k rest

/-- Defaultdict-style in-place update: mutate the entry for `k` with `f` if
present (keeping its position), otherwise append `(k, f d)` at the end —
dict insertion-order semantics of `d[k] = f(d.get(k, default))`. -/
def assocUpdateD {β : Type} (l : List (String × β)) (k : String) (d : β)
    (f : β → β) : List (String × β) :=
  match l with
  | [] => [(k, f d)]
  | (k', v) :: rest =>
      if k' = k then (k', f v) :: rest else (k', v) :: assocUpdateD rest k d f

/-- `_update_pipeline_metrics`: bump counters, push the four capped windows
(durations and records only when the value is truthy and `> 0`, which for
integers is exactly `0 < value`), recompute the affected running averages from
the updated window, and set `last_execution` to this record's start time. -/
def updatePipelineMetrics (e : Execution) (m : Metrics) : Metrics :=
  let durations' :=
    if 0 < e.duration then pushWindow m.durations e.duration else m.durations
  let records' :=
    if 0 < e.records_processed then
      pushWindow m.records_processed_history e.records_processed
    else m.records_processed_history
  { total_executions := m.total_executions + 1
    successful_executions :=
      if e.status = .success then m.successful_executions + 1
      else m.successful_executions
    failed_executions :=
      if e.status = .failed then m.failed_executions + 1
      else m.failed_executions
    avg_duration :=
      if 0 < e.duration then listMean (durations'.map (fun d : Int => (d : ℚ)))
      else m.avg_duration
    avg_records_processed :=
      if 0 < e.records_processed then listMean (records'.map (fun r : Int => (r : ℚ)))
      else m.avg_records_processed
    last_execution := some e.start_time
    team := e.team
    durations := durations'
    records_processed_history := records'
    status_history := pushWindow m.status_history e.status
    execution_times := pushWindow m.execution_times e.start_time }

/-- The mutable state of a `PipelineMonitor`: the unbounded execution ledger,
the per-pipeline metrics map, and the deduplicator's per-pipeline alert
history (`self.alerts` is initialized in the source but never used). -/
structure MonitorState where
  executions : List Execution
  metrics : List (String × Metrics)
  alertHistory : String → List Alert

/-- Fresh `PipelineMonitor()`. -/
def MonitorState.base : MonitorState :=
  { executions := [], metrics := [], alertHistory := fun _ => [] }

/-- One iteration of `load_executions`: append to the ledger and update the
pipeline's metrics entry (created on first access, defaultdict-style). -/
def recordExecution (st : MonitorState) (e : Execution) : MonitorState :=
  { st with
    executions := st.executions ++ [e]
    metrics :=
      assocUpdateD st.metrics e.pipeline_id Metrics.base
        (updatePipelineMetrics e) }

/-- Ingest a whole record sequence into a fresh monitor. -/
def ingestAll (rs : List Execution) : MonitorState :=
  rs.foldl recordExecution MonitorState.base

/-- `_add_alert`: prune this pipeline's alert history to entries strictly less
than one hour old, suppress the candidate if a retained entry matches its
severity and message, otherwise stamp it with `now` and append it to both the
output list and the (pruned) history.  On suppression the stored history is
left as it was, because the source only writes the pruned local list back on
the emit path. -/
def addAlert (now : Int) (pid : String) (sev : AlertSeverity) (msg : Msg)
    (team : String) (anomalies : List Alert) (hist : String → List Alert) :
    List Alert × (String → List Alert) :=
  let recent := (hist pid).filter (fun a => decide (now - a.timestamp < 3600))
  if recent.any (fun a => decide (a.severity = sev ∧ a.message = msg)) then
    (anomalies, hist)
  else
    let alert : Alert :=
      { pipeline_id := pid, severity := sev, message := msg, team := team
        timestamp := now }
    (anomalies ++ [alert],
     fun p => if p = pid then recent ++ [alert] else hist p)

/-- One candidate submission to the deduplicator: the clock reading at the
call, the pipeline, and the candidate's severity, message and team. -/
structure Submission where
  now : Int
  pid : String
  severity : AlertSeverity
  message : Msg
  team : String
deriving DecidableEq, Repr

/-- Thread a sequence of submissions through `_add_alert`, starting from a
given (output, history) pair. -/
def runSubsFrom (acc : List Alert × (String → List Alert)) :
    List Submission → List Alert × (String → List Alert)
  | [] => acc
  | s :: rest =>
      runSubsFrom (addAlert s.now s.pid s.severity s.message s.team acc.1 acc.2)
        rest

/-- Run a submission sequence against an empty output and empty history. -/
def runSubmissions (subs : List Submission) :
    List Alert × (String → List Alert) :=
  runSubsFrom ([], fun _ => []) subs

/-- `statistics.mean(metrics['durations'])` over the duration window, as an
exact rational. -/
def durMean (m : Metrics) : ℚ := listMean (m.durations.map (fun d : Int => (d : ℚ)))

/-- `metrics['durations'][-1]` (the window is non-empty at every use site). -/
def durLatest (m : Metrics) : Int := m.durations.getLastD 0

/-- Sample variance with `n - 1` denominator: the square of
`statistics.stdev`, as an exact rational. -/
def sampleVarQ (l : List Int) : ℚ :=
  let mu := listMean (l.map (fun d : Int => (d : ℚ)))
  ((l.map (fun d => ((d : ℚ) - mu) ^ 2)).sum) / ((l.length : ℚ) - 1)

/-- Detector 1 (success-rate analysis) of `detect_anomalies`, producing its
candidate alerts for one pipeline. -/
def successRateAlerts (m : Metrics) : List (AlertSeverity × Msg) :=
  let rate : ℚ :=
    ((m.successful_executions : ℚ) / (m.total_executions : ℚ)) * 100
  if rate < defaultThresholds.successRate then
    [(if rate < 50 then AlertSeverity.high else AlertSeverity.medium,
      Msg.lowSuccessRate rate)]
  else []

/-- Detector 2 (duration z-score analysis).  The source compares
`abs(latest - mean)/stdev` against the threshold 2 and against 3; with
`stdev = sqrt(v) > 0` and both thresholds non-negative this is exactly the
squared comparison `c^2 * v < (latest - mean)^2` used here (the bridge to the
real-valued z-score is proved below).  The message carries the latest
duration and the z-score's square. -/
def durationAlerts (m : Metrics) : List (AlertSeverity × Msg) :=
  if 5 ≤ m.durations.length then
    let avg := durMean m
    let v := sampleVarQ m.durations
    let latest := durLatest m
    let devsq := ((latest : ℚ) - avg) ^ 2
    if 0 < v then
      if defaultThresholds.durationStdDev ^ 2 * v < devsq then
        [(if (3 : ℚ) ^ 2 * v < devsq then AlertSeverity.high
          else AlertSeverity.medium,
          Msg.abnormalDuration latest (devsq / v))]
      else []
    else []
  else []

/-- Detector 3 (throughput analysis). -/
def throughputAlerts (m : Metrics) : List (AlertSeverity × Msg) :=
  if 5 ≤ m.records_processed_history.length then
    let avg := listMean (m.records_processed_history.map (fun r : Int => (r : ℚ)))
    let latest := m.records_processed_history.getLastD 0
    if 0 < avg then
      let dropPct := ((avg - (latest : ℚ)) / avg) * 100
      if defaultThresholds.throughputDecrease < dropPct then
        [(AlertSeverity.high, Msg.throughputDrop dropPct)]
      else []
    else []
  else []

/-- Detector 4 (failure pattern analysis over `status_history[-5:]`). -/
def failureAlerts (m : Metrics) : List (AlertSeverity × Msg) :=
  let recent := lastN 5 m.status_history
  if recent.length = 5 then
    let failureCount :=
      (recent.filter (fun s => decide (s = PipelineStatus.failed))).length
    if 3 ≤ failureCount then
      [(AlertSeverity.critical, Msg.repeatedFailures failureCount)]
    else []
  else []

/-- `'report' in pipeline_id.lower()`: case-insensitive substring test,
via an explicit list-of-characters matcher. -/
def leadsWith : List Char → List Char → Bool
  | [], _ => true
  | _ :: _, [] => false
  | a :: as, b :: bs => a == b && leadsWith as bs

/-- Does `s` contain `pat` as a contiguous sublist? -/
def containsChars (pat : List Char) : List Char → Bool
  | [] => pat.isEmpty
  | c :: rest => leadsWith pat (c :: rest) || containsChars pat rest

/-- `'report' in pid.lower()`: the id's characters are lowercased one by one
(`str.lower` on the ASCII pipeline ids) and searched for `report`. -/
def containsReport (pid : String) : Bool :=
  containsChars "report".data (pid.data.map Char.toLower)

/-- Detector 5 (report generation pattern analysis): consecutive inter-arrival
gaps in hours over `execution_times[-10:]` in stored order; fires "delayed"
when the average gap exceeds 25 hours, and "missing" when the time since
`last_execution` exceeds 1.5 times the average gap. -/
def scheduleAlerts (now : Int) (pid : String) (m : Metrics) :
    List (AlertSeverity × Msg) :=
  if containsReport pid then
    let recent := lastN 10 m.execution_times
    if 2 ≤ recent.length then
      let gaps :=
        (recent.zip recent.tail).map (fun p => ((p.2 - p.1 : Int) : ℚ) / 3600)
      let avgInterval := if gaps = [] then 24 else listMean gaps
      let delayed :=
        if 25 < avgInterval then
          [(AlertSeverity.high, Msg.reportDelayed avgInterval)]
        else []
      let missing :=
        match m.last_execution with
        | none => []
        | some lastRun =>
            let hoursSince := ((now - lastRun : Int) : ℚ) / 3600
            if avgInterval * (3 / 2) < hoursSince then
              [(AlertSeverity.high, Msg.missingReport hoursSince)]
            else []
      delayed ++ missing
    else []
  else []

/-- The five detectors of `detect_anomalies` in source order, as candidate
(severity, message) pairs for one pipeline. -/
def detectForPipeline (now : Int) (pid : String) (m : Metrics) :
    List (AlertSeverity × Msg) :=
  successRateAlerts m ++ durationAlerts m ++ throughputAlerts m ++
    failureAlerts m ++ scheduleAlerts now pid m

/-- Route one pipeline's candidate alerts through `_add_alert` in order. -/
def submitCandidates (now : Int) (pid team : String)
    (cands : List (AlertSeverity × Msg))
    (acc : List Alert × (String → List Alert)) :
    List Alert × (String → List Alert) :=
  cands.foldl (fun a c => addAlert now pid c.1 c.2 team a.1 a.2) acc

/-- `detect_anomalies`: iterate the metrics map in store order, skip pipelines
with fewer than 5 total executions, run the five detectors and pass every
candidate through the deduplicator; returns the emitted alerts and the updated
alert history. -/
def detectAnomalies (st : MonitorState) (now : Int) :
    List Alert × (String → List Alert) :=
  st.metrics.foldl
    (fun acc pm =>
      if pm.2.total_executions < 5 then acc
      else submitCandidates now pm.1 pm.2.team
        (detectForPipeline now pm.1 pm.2) acc)
    ([], st.alertHistory)

/-- Result of `get_pipeline_health(pipeline_id)` for a specific pipeline: the
source returns an `{'error': ...}` dict when the pipeline is unknown (a
NotFound result value, not a raised exception) and a snapshot dict
otherwise. -/
structure HealthSnapshot where
  pipeline_id : String
  success_rate : ℚ
  total_executions : Nat
  failed_executions : Nat
  avg_duration : ℚ
  avg_records_processed : ℚ
  last_execution : Option Int
  team : String
deriving DecidableEq, Repr

/-- `HealthSnapshot | NotFound`. -/
inductive HealthResult where
  | notFound (pid : String)
  | snapshot (s : HealthSnapshot)
deriving DecidableEq, Repr

/-- `get_pipeline_health` on a specific pipeline id. -/
def getPipelineHealth (st : MonitorState) (pid : String) : HealthResult :=
  match alookup pid st.metrics with
  | none => .notFound pid
  | some m =>
      .snapshot
        { pipeline_id := pid
          success_rate :=
            if 0 < m.total_executions then
              ((m.successful_executions : ℚ) / (m.total_executions : ℚ)) * 100
            else 0
          total_executions := m.total_executions
          failed_executions := m.failed_executions
          avg_duration := m.avg_duration
          avg_records_processed := m.avg_records_processed
          last_execution := m.last_execution
          team := m.team }

/-- One `team_metrics` aggregate. -/
structure TeamAgg where
  total_pipelines : Nat
  total_executions : Nat
  successful_executions : Nat
  failed_executions : Nat
  avg_success_rate : ℚ
deriving DecidableEq, Repr

/-- The defaultdict initializer of `get_team_metrics`. -/
def TeamAgg.base : TeamAgg :=
  { total_pipelines := 0, total_executions := 0, successful_executions := 0
    failed_executions := 0, avg_success_rate := 0 }

/-- The per-pipeline accumulation step of `get_team_metrics`. -/
def bumpAgg (a : TeamAgg) (m : Metrics) : TeamAgg :=
  { a with
    total_pipelines := a.total_pipelines + 1
    total_executions := a.total_executions + m.total_executions
    successful_executions := a.successful_executions + m.successful_executions
    failed_executions := a.failed_executions + m.failed_executions }

/-- The second loop of `get_team_metrics`: fill in `avg_success_rate` as
summed successes over summed totals times 100, with 0 on a zero
denominator. -/
def finalizeAgg (a : TeamAgg) : TeamAgg :=
  { a with
    avg_success_rate :=
      if 0 < a.total_executions then
        ((a.successful_executions : ℚ) / (a.total_executions : ℚ)) * 100
      else 0 }

/-- `get_team_metrics`: accumulate every pipeline's counters into its team's
aggregate (teams appear in first-touch order, defaultdict-style), then run
the average-success-rate pass over every aggregate. -/
def getTeamMetrics (st : MonitorState) : List (String × TeamAgg) :=
  let base :=
    st.metrics.foldl
      (fun acc pm => assocUpdateD acc pm.2.team TeamAgg.base
        (fun a => bumpAgg a pm.2))
      []
  base.map (fun p => (p.1, finalizeAgg p.2))

/-- One entry of `trend_data` in `get_performance_trends` (the date is the
epoch day of the executions grouped under it). -/
structure DailyTrend where
  date : Int
  success_rate : ℚ
  avg_duration : ℚ
  throughput : ℚ
deriving DecidableEq, Repr

/-- The non-empty result of `get_performance_trends`.  `duration_var` embeds
the source's `duration_std_dev` as the sample variance (its square, which
determines it); note the source raises `StatisticsError` when exactly one
positive duration matched, a path outside the claims, totalized here. -/
structure TrendReport where
  pipeline_id : String
  success_rate : ℚ
  avg_duration : ℚ
  min_duration : Int
  max_duration : Int
  total_executions : Nat
  trend_data : List DailyTrend
  days_analyzed : Int
  duration_var : Option ℚ
  avg_records_per_execution : Option ℚ
  total_records : Option Int
deriving DecidableEq, Repr

/-- `TrendReport | Empty` (the source's `{'error': ...}` dict embeds the
pipeline id and day count). -/
inductive TrendResult where
  | empty (pid : String) (days : Int)
  | report (r : TrendReport)
deriving DecidableEq, Repr

/-- Minimum of a list of integers (`min(durations)`; call sites guard
non-emptiness). -/
def listMinI : List Int → Int
  | [] => 0
  | x :: xs => xs.foldl min x

/-- Maximum of a list of integers. -/
def listMaxI : List Int → Int
  | [] => 0
  | x :: xs => xs.foldl max x

/-- The calendar-day key of an execution(`exec.start_time.date()`), as the
epoch day. -/
def dayKey (e : Execution) : Int := e.start_time / 86400

/-- The per-day aggregation of `get_performance_trends` for one day key:
grouping by key and then aggregating equals filtering per key. -/
def dayStats (recent : List Execution) (day : Int) : DailyTrend :=
  let de := recent.filter (fun e => decide (dayKey e = day))
  let durations := (de.filter (fun e => decide (0 < e.duration))).map
    (fun e => e.duration)
  let thr := (de.filter (fun e =>
      decide (0 < e.records_processed ∧ 0 < e.duration))).map
    (fun e => (e.records_processed : ℚ) / (e.duration : ℚ))
  { date := day
    success_rate :=
      if 0 < de.length then
        (((de.filter (fun e => decide (e.status = PipelineStatus.success))).length : ℚ)
          / (de.length : ℚ)) * 100
      else 0
    avg_duration :=
      if durations = [] then 0
      else listMean (durations.map (fun d : Int => (d : ℚ)))
    throughput := if thr = [] then 0 else listMean thr }

/-- Build the non-empty branch of `get_performance_trends` from the matching
executions (sorted distinct day keys, per-day points, overall stats). -/
def buildTrendReport (pid : String) (days : Int) (recent : List Execution) :
    TrendReport :=
  let durations : List Int :=
    (recent.filter (fun e => decide (0 < e.duration))).map (fun e => e.duration)
  let records : List Int :=
    (recent.filter (fun e => decide (0 < e.records_processed))).map
      (fun e => e.records_processed)
  let successCount :=
    (recent.filter (fun e => decide (e.status = PipelineStatus.success))).length
  let dayKeys := ((recent.map dayKey).dedup).insertionSort (· ≤ ·)
  { pipeline_id := pid
    success_rate :=
      if 0 < recent.length then
        ((successCount : ℚ) / (recent.length : ℚ)) * 100
      else 0
    avg_duration :=
      if durations = [] then 0 else listMean (durations.map (fun d : Int => (d : ℚ)))
    min_duration := if durations = [] then 0 else listMinI durations
    max_duration := if durations = [] then 0 else listMaxI durations
    total_executions := recent.length
    trend_data := dayKeys.map (dayStats recent)
    days_analyzed := days
    duration_var := if durations = [] then none else some (sampleVarQ durations)
    avg_records_per_execution :=
      if records = [] then none
      else some (listMean (records.map (fun r : Int => (r : ℚ))))
    total_records := if records = [] then none else some records.sum }

/-- `get_performance_trends(pipeline_id, days)`: filter the unbounded ledger
to this pipeline with `start_time ≥ now - days`, return the Empty result when
nothing matches, otherwise the trend report. -/
def getPerformanceTrends (st : MonitorState) (pid : String) (days now : Int) :
    TrendResult :=
  let cutoff := now - days * 86400
  let recent := st.executions.filter
    (fun e => decide (e.pipeline_id = pid ∧ cutoff ≤ e.start_time))
  if recent = [] then .empty pid days
  else .report (buildTrendReport pid days recent)

/-! ## Window lemmas -/

theorem lastN_length {α : Type} (n : Nat) (l : List α) :
    (lastN n l).length = min n l.length := by
  simp only [lastN, List.length_drop]
  omega

theorem lastN_length_le {α : Type} (n : Nat) (l : List α) :
    (lastN n l).length ≤ n := by
  rw [lastN_length]; omega

theorem lastN_nil {α : Type} (n : Nat) : lastN n ([] : List α) = [] := by
  simp [lastN]

theorem lastN_sublist {α : Type} (n : Nat) (l : List α) :
    (lastN n l) ⊆ l := List.drop_subset _ l

/-- The single window update of `_update_pipeline_metrics` keeps the window
equal to the last 100 entries of the full appended sequence. -/
theorem pushWindow_lastN {α : Type} (l : List α) (x : α) :
    pushWindow (lastN 100 l) x = lastN 100 (l ++ [x]) := by
  by_cases h : l.length < 100
  · have h0 : l.length - 100 = 0 := by omega
    have h1 : l.length + 1 - 100 = 0 := by omega
    have h2 : ¬ 100 < l.length + 1 := by omega
    simp only [lastN, pushWindow, h0, List.drop_zero, List.length_append,
      List.length_cons, List.length_nil, h1, h2, if_false]
  · push_neg at h
    have hlen : (lastN 100 l).length = 100 := by rw [lastN_length]; omega
    have h101 : 100 < (lastN 100 l ++ [x]).length := by
      simp [List.length_append, hlen]
    simp only [pushWindow, if_pos h101]
    have hd : (lastN 100 l ++ [x]).drop 1 = (lastN 100 l).drop 1 ++ [x] := by
      apply List.drop_append_of_le_length
      omega
    rw [hd]
    simp only [lastN, List.drop_drop, List.length_append, List.length_cons,
      List.length_nil]
    have h2 : l.length - 100 + 1 = l.length - 99 := by omega
    have h4 : l.length + 1 - 100 = l.length - 99 := by omega
    rw [h2, h4, List.drop_append_of_le_length (by omega)]

theorem pushWindow_ne_nil {α : Type} (w : List α) (x : α) :
    pushWindow w x ≠ [] := by
  simp only [pushWindow]
  by_cases h : 100 < (w ++ [x]).length
  · simp only [if_pos h]
    intro hc
    have hlc := congrArg List.length hc
    simp only [List.length_drop, List.length_append, List.length_cons,
      List.length_nil] at hlc
    simp only [List.length_append, List.length_cons, List.length_nil] at h
    omega
  · simp only [if_neg h]
    simp

/-! ## Association list lemmas -/

theorem alookup_assocUpdateD_self {β : Type} (l : List (String × β)) (k : String)
    (d : β) (f : β → β) :
    alookup k (assocUpdateD l k d f) = some (f (((alookup k l).getD d))) := by
  induction l with
  | nil => simp [alookup, assocUpdateD]
  | cons p rest ih =>
      obtain ⟨k0, v⟩ := p
      by_cases h : k0 = k
      · simp [alookup, assocUpdateD, h]
      · simp [alookup, assocUpdateD, h, ih]

theorem alookup_assocUpdateD_ne {β : Type} (l : List (String × β)) (k k' : String)
    (d : β) (f : β → β) (hne : k' ≠ k) :
    alookup k' (assocUpdateD l k d f) = alookup k' l := by
  have hne2 : ¬ k = k' := fun hc => hne hc.symm
  induction l with
  | nil => simp [alookup, assocUpdateD, hne2]
  | cons p rest ih =>
      obtain ⟨k0, v⟩ := p
      by_cases h : k0 = k
      · subst h
        simp only [assocUpdateD, if_pos rfl, alookup, if_neg hne2]
      · simp only [assocUpdateD, if_neg h, alookup]
        by_cases h2 : k0 = k'
        · simp [h2]
        · simp [h2, ih]

/-! ## Ingestion characterization -/

/-- The sub-sequence of the input stream belonging to one pipeline. -/
def pipelineRecs (pid : String) (rs : List Execution) : List Execution :=
  rs.filter (fun e => decide (e.pipeline_id = pid))

/-- The values appended to a pipeline's duration window: durations of its
records that are strictly positive, in ingestion order. -/
def posDurations (recs : List Execution) : List Int :=
  (recs.filter (fun e => decide (0 < e.duration))).map (fun e => e.duration)

/-- The values appended to a pipeline's records window. -/
def posRecords (recs : List Execution) : List Int :=
  (recs.filter (fun e => decide (0 < e.records_processed))).map
    (fun e => e.records_processed)

/-- Full characterization of a `pipeline_metrics` entry in terms of the
pipeline's record sub-sequence `recs`: counters count, the four windows hold
the last 100 appended values in order, the averages are the means of the
current window contents (0 while empty), and `last_execution`/`team` come
from the last ingested record. -/
def MetricsSpec (recs : List Execution) (m : Metrics) : Prop :=
  m.total_executions = recs.length ∧
  m.successful_executions =
    (recs.filter (fun e => decide (e.status = PipelineStatus.success))).length ∧
  m.failed_executions =
    (recs.filter (fun e => decide (e.status = PipelineStatus.failed))).length ∧
  m.durations = lastN 100 (posDurations recs) ∧
  m.records_processed_history = lastN 100 (posRecords recs) ∧
  m.status_history = lastN 100 (recs.map Execution.status) ∧
  m.execution_times = lastN 100 (recs.map Execution.start_time) ∧
  m.avg_duration =
    (if m.durations = [] then 0
     else listMean (m.durations.map (fun d : Int => (d : ℚ)))) ∧
  m.avg_records_processed =
    (if m.records_processed_history = [] then 0
     else listMean (m.records_processed_history.map (fun r : Int => (r : ℚ)))) ∧
  m.last_execution = (recs.map Execution.start_time).getLast? ∧
  m.team = (recs.map Execution.team).getLastD ""

theorem metricsSpec_base : MetricsSpec [] Metrics.base := by
  refine ⟨rfl, rfl, rfl, rfl, rfl, rfl, rfl, ?_, ?_, rfl, rfl⟩ <;>
    simp [Metrics.base]

theorem posDurations_append (recs : List Execution) (e : Execution) :
    posDurations (recs ++ [e]) =
      posDurations recs ++ (if 0 < e.duration then [e.duration] else []) := by
  by_cases h : 0 < e.duration <;>
    simp [posDurations, List.filter_append, h]

theorem posRecords_append (recs : List Execution) (e : Execution) :
    posRecords (recs ++ [e]) =
      posRecords recs ++
        (if 0 < e.records_processed then [e.records_processed] else []) := by
  by_cases h : 0 < e.records_processed <;>
    simp [posRecords, List.filter_append, h]

/-- One `_update_pipeline_metrics` call preserves the characterization,
extending the record sub-sequence by the new record. -/
theorem metricsSpec_snoc (recs : List Execution) (m : Metrics) (e : Execution)
    (h : MetricsSpec recs m) :
    MetricsSpec (recs ++ [e]) (updatePipelineMetrics e m) := by
  obtain ⟨htot, hsucc, hfail, hdur, hrec, hstat, htimes, havgd, havgr, hlast,
    hteam⟩ := h
  refine ⟨?_, ?_, ?_, ?_, ?_, ?_, ?_, ?_, ?_, ?_, ?_⟩
  · simp [updatePipelineMetrics, htot]
  · by_cases hs : e.status = PipelineStatus.success <;>
      simp [updatePipelineMetrics, hs, List.filter_append, hsucc]
  · by_cases hs : e.status = PipelineStatus.failed <;>
      simp [updatePipelineMetrics, hs, List.filter_append, hfail]
  · by_cases hd : 0 < e.duration
    · simp only [updatePipelineMetrics, if_pos hd, posDurations_append, hdur,
        pushWindow_lastN]
    · simp only [updatePipelineMetrics, if_neg hd, posDurations_append, hdur]
      simp [hd]
  · by_cases hr : 0 < e.records_processed
    · simp only [updatePipelineMetrics, if_pos hr, posRecords_append, hrec,
        pushWindow_lastN]
    · simp only [updatePipelineMetrics, if_neg hr, posRecords_append, hrec]
      simp [hr]
  · simp only [updatePipelineMetrics, List.map_append, hstat,
      pushWindow_lastN]
    rfl
  · simp only [updatePipelineMetrics, List.map_append, htimes,
      pushWindow_lastN]
    rfl
  · by_cases hd : 0 < e.duration
    · have hne := pushWindow_ne_nil m.durations e.duration
      simp [updatePipelineMetrics, hd, hne]
    · simp [updatePipelineMetrics, hd, havgd]
  · by_cases hr : 0 < e.records_processed
    · have hne := pushWindow_ne_nil m.records_processed_history
        e.records_processed
      simp [updatePipelineMetrics, hr, hne]
    · simp [updatePipelineMetrics, hr, havgr]
  · simp [updatePipelineMetrics, List.map_append, List.getLast?_concat]
  · simp [updatePipelineMetrics, List.map_append, List.getLastD_concat]

theorem ingestAll_append (rs : List Execution) (e : Execution) :
    ingestAll (rs ++ [e]) = recordExecution (ingestAll rs) e := by
  simp [ingestAll, List.foldl_append]

/-- The unbounded ledger retains exactly the ingested records in order. -/
theorem ingest_executions (rs : List Execution) :
    (ingestAll rs).executions = rs := by
  induction rs using List.reverseRecOn with
  | nil => rfl
  | append_singleton rs e ih =>
      rw [ingestAll_append]
      simp [recordExecution, ih]

theorem pipelineRecs_append (pid : String) (rs : List Execution)
    (e : Execution) :
    pipelineRecs pid (rs ++ [e]) =
      pipelineRecs pid rs ++ (if e.pipeline_id = pid then [e] else []) := by
  by_cases h : e.pipeline_id = pid <;>
    simp [pipelineRecs, List.filter_append, h]

/-- Master ingestion lemma: after ingesting any record sequence into a fresh
monitor, looking up a pipeline finds no entry exactly when the pipeline never
occurred in the input, and otherwise an entry satisfying the full
characterization with respect to the pipeline's record sub-sequence. -/
theorem ingest_lookup (rs : List Execution) (pid : String) :
    (pipelineRecs pid rs = [] ∧ alookup pid (ingestAll rs).metrics = none) ∨
    (pipelineRecs pid rs ≠ [] ∧
      ∃ m, alookup pid (ingestAll rs).metrics = some m ∧
        MetricsSpec (pipelineRecs pid rs) m) := by
  induction rs using List.reverseRecOn with
  | nil => exact Or.inl ⟨rfl, rfl⟩
  | append_singleton rs e ih =>
      rw [ingestAll_append]
      by_cases hpe : e.pipeline_id = pid
      · right
        have hmet : (recordExecution (ingestAll rs) e).metrics =
            assocUpdateD (ingestAll rs).metrics pid Metrics.base
              (updatePipelineMetrics e) := by
          simp [recordExecution, hpe]
        rw [hmet, pipelineRecs_append, if_pos hpe]
        constructor
        · simp
        · rcases ih with ⟨hrecs, hnone⟩ | ⟨hrecs, m, hsome, hspec⟩
          · refine ⟨updatePipelineMetrics e Metrics.base, ?_, ?_⟩
            · rw [alookup_assocUpdateD_self, hnone]
              rfl
            · rw [hrecs]
              simpa using metricsSpec_snoc [] Metrics.base e metricsSpec_base
          · refine ⟨updatePipelineMetrics e m, ?_, ?_⟩
            · rw [alookup_assocUpdateD_self, hsome]
              rfl
            · exact metricsSpec_snoc _ m e hspec
      · have hne : pid ≠ e.pipeline_id := fun hc => hpe hc.symm
        have hmet : alookup pid (recordExecution (ingestAll rs) e).metrics =
            alookup pid (ingestAll rs).metrics := by
          simp only [recordExecution]
          exact alookup_assocUpdateD_ne _ _ _ _ _ hne
        rw [hmet, pipelineRecs_append, if_neg hpe]
        simpa using ih

theorem ingest_lookup_spec (rs : List Execution) (pid : String) (m : Metrics)
    (hm : alookup pid (ingestAll rs).metrics = some m) :
    MetricsSpec (pipelineRecs pid rs) m := by
  rcases ingest_lookup rs pid with ⟨_, hnone⟩ | ⟨_, m', hsome, hspec⟩
  · rw [hm] at hnone
    cases hnone
  · rw [hm] at hsome
    injection hsome with hmm
    rwa [hmm]

/-! ## Claim theorems -/

/-- C3: after any ingestion sequence, each of the four per-pipeline windows
holds exactly the last (at most) 100 values appended to it, in append order —
i.e. eviction is strictly FIFO — and in particular never exceeds 100
entries. -/
theorem claim3_windows_capped_fifo (rs : List Execution) (pid : String)
    (m : Metrics) (hm : alookup pid (ingestAll rs).metrics = some m) :
    (m.durations = lastN 100 (posDurations (pipelineRecs pid rs)) ∧
      m.durations.length ≤ 100) ∧
    (m.records_processed_history =
        lastN 100 (posRecords (pipelineRecs pid rs)) ∧
      m.records_processed_history.length ≤ 100) ∧
    (m.status_history =
        lastN 100 ((pipelineRecs pid rs).map Execution.status) ∧
      m.status_history.length ≤ 100) ∧
    (m.execution_times =
        lastN 100 ((pipelineRecs pid rs).map Execution.start_time) ∧
      m.execution_times.length ≤ 100) := by
  obtain ⟨-, -, -, hdur, hrec, hstat, htimes, -, -, -, -⟩ :=
    ingest_lookup_spec rs pid m hm
  exact ⟨⟨hdur, hdur ▸ lastN_length_le _ _⟩,
    ⟨hrec, hrec ▸ lastN_length_le _ _⟩,
    ⟨hstat, hstat ▸ lastN_length_le _ _⟩,
    ⟨htimes, htimes ▸ lastN_length_le _ _⟩⟩

/-- A concrete record used by several witnesses. -/
def exW : Execution :=
  { execution_id := "e1", pipeline_id := "p", status := .success
    start_time := 1000, end_time := some 1010, duration := 10
    records_processed := 5, team := "t" }

/-- The metrics entry produced by ingesting `exW` alone. -/
def mW1 : Metrics := updatePipelineMetrics exW Metrics.base

theorem claim3_witness :
    alookup "p" (ingestAll [exW]).metrics = some mW1 ∧
      (mW1.durations = lastN 100 (posDurations (pipelineRecs "p" [exW])) ∧
        mW1.durations.length ≤ 100) :=
  ⟨rfl, (claim3_windows_capped_fifo [exW] "p" mW1 rfl).1⟩

/-- C4: after any ingestion sequence, the stored `avg_duration` is the
arithmetic mean of exactly the current duration window (0 while the window is
empty), and likewise `avg_records_processed` for the records window. -/
theorem claim4_avg_is_window_mean (rs : List Execution) (pid : String)
    (m : Metrics) (hm : alookup pid (ingestAll rs).metrics = some m) :
    m.avg_duration =
      (if m.durations = [] then 0
       else listMean (m.durations.map (fun d : Int => (d : ℚ)))) ∧
    m.avg_records_processed =
      (if m.records_processed_history = [] then 0
       else listMean (m.records_processed_history.map (fun r : Int => (r : ℚ)))) := by
  obtain ⟨-, -, -, -, -, -, -, havgd, havgr, -, -⟩ :=
    ingest_lookup_spec rs pid m hm
  exact ⟨havgd, havgr⟩

theorem claim4_witness :
    alookup "p" (ingestAll [exW]).metrics = some mW1 ∧
      mW1.avg_duration =
        (if mW1.durations = [] then 0
         else listMean (mW1.durations.map (fun d : Int => (d : ℚ)))) :=
  ⟨rfl, (claim4_avg_is_window_mean [exW] "p" mW1 rfl).1⟩

/-- C9: when no ledger record of the pipeline lies within the query window,
`get_performance_trends` returns the explicit Empty result (no exception
path); a pipeline that was never ingested is the special case in which the
hypothesis holds vacuously. -/
theorem claim9_trends_empty (rs : List Execution) (pid : String)
    (days now : Int)
    (h : ∀ e ∈ rs, e.pipeline_id = pid →
      e.start_time < now - days * 86400) :
    getPerformanceTrends (ingestAll rs) pid days now = .empty pid days := by
  unfold getPerformanceTrends
  rw [ingest_executions]
  have hnil : rs.filter
      (fun e => decide (e.pipeline_id = pid ∧
        now - days * 86400 ≤ e.start_time)) = [] := by
    rw [List.filter_eq_nil_iff]
    intro e he
    simp only [decide_eq_true_eq, not_and, not_le]
    intro hpid
    exact h e he hpid
  simp only [hnil]
  simp

theorem claim9_witness :
    (∀ e ∈ [exW], e.pipeline_id = "z" →
      e.start_time < 10000000 - 7 * 86400) ∧
    getPerformanceTrends (ingestAll [exW]) "z" 7 10000000 = .empty "z" 7 :=
  ⟨by decide, claim9_trends_empty [exW] "z" 7 10000000 (by decide)⟩

/-- C10: in every reachable metrics entry all duration-window and
records-window samples are strictly positive; a record whose duration
(respectively records_processed) is zero or negative leaves the corresponding
window and running average untouched; and the throughput detector's
positive-mean guard cannot suppress evaluation while the records window is
non-empty, because the window mean is then strictly positive. -/
theorem claim10_positive_windows (rs : List Execution) (pid : String)
    (m : Metrics) (hm : alookup pid (ingestAll rs).metrics = some m) :
    (∀ d ∈ m.durations, 0 < d) ∧
    (∀ r ∈ m.records_processed_history, 0 < r) ∧
    (∀ e : Execution, e.duration ≤ 0 →
      (updatePipelineMetrics e m).durations = m.durations ∧
      (updatePipelineMetrics e m).avg_duration = m.avg_duration) ∧
    (∀ e : Execution, e.records_processed ≤ 0 →
      (updatePipelineMetrics e m).records_processed_history =
        m.records_processed_history ∧
      (updatePipelineMetrics e m).avg_records_processed =
        m.avg_records_processed) ∧
    (m.records_processed_history ≠ [] →
      0 < listMean (m.records_processed_history.map (fun r : Int => (r : ℚ)))) := by
  obtain ⟨-, -, -, hdur, hrec, -, -, -, -, -, -⟩ :=
    ingest_lookup_spec rs pid m hm
  have hdpos : ∀ d ∈ m.durations, 0 < d := by
    intro d hd
    rw [hdur] at hd
    have hd2 := lastN_sublist 100 _ hd
    simp only [posDurations, List.mem_map, List.mem_filter,
      decide_eq_true_eq] at hd2
    obtain ⟨e, ⟨-, hpos⟩, hde⟩ := hd2
    omega
  have hrpos : ∀ r ∈ m.records_processed_history, 0 < r := by
    intro r hr
    rw [hrec] at hr
    have hr2 := lastN_sublist 100 _ hr
    simp only [posRecords, List.mem_map, List.mem_filter,
      decide_eq_true_eq] at hr2
    obtain ⟨e, ⟨-, hpos⟩, hre⟩ := hr2
    omega
  refine ⟨hdpos, hrpos, ?_, ?_, ?_⟩
  · intro e he
    have hno : ¬ 0 < e.duration := by omega
    constructor <;> simp [updatePipelineMetrics, hno]
  · intro e he
    have hno : ¬ 0 < e.records_processed := by omega
    constructor <;> simp [updatePipelineMetrics, hno]
  · intro hne
    have hmapne : m.records_processed_history.map (fun r : Int => (r : ℚ)) ≠ [] := by
      intro hc
      rw [List.map_eq_nil_iff] at hc
      exact hne hc
    have hsum : 0 < (m.records_processed_history.map (fun r : Int => (r : ℚ))).sum := by
      apply List.sum_pos
      · intro q hq
        obtain ⟨r, hr, hrq⟩ := List.mem_map.mp hq
        have hr0 := hrpos r hr
        rw [← hrq]
        exact_mod_cast hr0
      · exact hmapne
    have hlen : 0 < ((m.records_processed_history.map
        (fun r : Int => (r : ℚ))).length : ℚ) := by
      have : 0 < (m.records_processed_history.map (fun r : Int => (r : ℚ))).length :=
        List.length_pos.mpr hmapne
      exact_mod_cast this
    exact div_pos hsum hlen

theorem claim10_witness :
    alookup "p" (ingestAll [exW]).metrics = some mW1 ∧
      (∀ d ∈ mW1.durations, 0 < d) ∧
      (mW1.records_processed_history ≠ [] →
        0 < listMean (mW1.records_processed_history.map (fun r : Int => (r : ℚ)))) :=
  ⟨rfl, (claim10_positive_windows [exW] "p" mW1 rfl).1,
    (claim10_positive_windows [exW] "p" mW1 rfl).2.2.2.2⟩

theorem pipelineRecs_ne_nil_iff (rs : List Execution) (pid : String) :
    pipelineRecs pid rs ≠ [] ↔ pid ∈ rs.map Execution.pipeline_id := by
  simp only [pipelineRecs, Ne, List.filter_eq_nil_iff, decide_eq_true_eq,
    List.mem_map]
  push_neg
  constructor
  · intro ⟨e, he, hpe⟩
    exact ⟨e, he, hpe⟩
  · intro ⟨e, he, hpe⟩
    exact ⟨e, he, hpe⟩

/-- C8: `get_pipeline_health` on a pipeline id that never occurred in the
input returns the NotFound result value (never a raised failure), and on an
ingested pipeline returns the snapshot with success rate
successes/total × 100 (0 on a zero total), the execution totals, the window
averages, the last execution time and the team. -/
theorem claim8_health_result (rs : List Execution) (pid : String) :
    (pid ∉ rs.map Execution.pipeline_id →
      getPipelineHealth (ingestAll rs) pid = .notFound pid) ∧
    (pid ∈ rs.map Execution.pipeline_id →
      ∃ m, alookup pid (ingestAll rs).metrics = some m ∧
        getPipelineHealth (ingestAll rs) pid = .snapshot
          { pipeline_id := pid
            success_rate :=
              if 0 < m.total_executions then
                ((m.successful_executions : ℚ) / (m.total_executions : ℚ)) * 100
              else 0
            total_executions := m.total_executions
            failed_executions := m.failed_executions
            avg_duration := m.avg_duration
            avg_records_processed := m.avg_records_processed
            last_execution := m.last_execution
            team := m.team }) := by
  constructor
  · intro hnm
    have hnil : pipelineRecs pid rs = [] := by
      by_contra hc
      exact hnm ((pipelineRecs_ne_nil_iff rs pid).mp hc)
    rcases ingest_lookup rs pid with ⟨-, hnone⟩ | ⟨hne, -⟩
    · simp [getPipelineHealth, hnone]
    · exact absurd hnil hne
  · intro hmem
    have hne : pipelineRecs pid rs ≠ [] :=
      (pipelineRecs_ne_nil_iff rs pid).mpr hmem
    rcases ingest_lookup rs pid with ⟨hnil, -⟩ | ⟨-, m, hsome, -⟩
    · exact absurd hnil hne
    · exact ⟨m, hsome, by simp [getPipelineHealth, hsome]⟩

theorem claim8_witness :
    ("q" ∉ [exW].map Execution.pipeline_id ∧
      getPipelineHealth (ingestAll [exW]) "q" = .notFound "q") ∧
    ("p" ∈ [exW].map Execution.pipeline_id ∧
      ∃ m, alookup "p" (ingestAll [exW]).metrics = some m ∧
        getPipelineHealth (ingestAll [exW]) "p" = .snapshot
          { pipeline_id := "p"
            success_rate :=
              if 0 < m.total_executions then
                ((m.successful_executions : ℚ) / (m.total_executions : ℚ)) * 100
              else 0
            total_executions := m.total_executions
            failed_executions := m.failed_executions
            avg_duration := m.avg_duration
            avg_records_processed := m.avg_records_processed
            last_execution := m.last_execution
            team := m.team }) :=
  ⟨⟨by decide, (claim8_health_result [exW] "q").1 (by decide)⟩,
    ⟨by decide, (claim8_health_result [exW] "p").2 (by decide)⟩⟩

/-! ## Anomaly-scan pipeline isolation -/

theorem addAlert_mem (now : Int) (pid : String) (sev : AlertSeverity)
    (msg : Msg) (team : String) (out : List Alert)
    (hist : String → List Alert) (a : Alert)
    (ha : a ∈ (addAlert now pid sev msg team out hist).1) :
    a ∈ out ∨ a.pipeline_id = pid := by
  unfold addAlert at ha
  by_cases hsup : ((hist pid).filter
      (fun b => decide (now - b.timestamp < 3600))).any
      (fun b => decide (b.severity = sev ∧ b.message = msg))
  · simp only [hsup, if_true] at ha
    exact Or.inl ha
  · simp only [hsup, if_false, Bool.false_eq_true] at ha
    rcases List.mem_append.mp ha with h | h
    · exact Or.inl h
    · right
      rw [List.mem_singleton.mp h]

theorem submitCandidates_mem (now : Int) (pid team : String)
    (cands : List (AlertSeverity × Msg))
    (acc : List Alert × (String → List Alert)) (a : Alert)
    (ha : a ∈ (submitCandidates now pid team cands acc).1) :
    a ∈ acc.1 ∨ a.pipeline_id = pid := by
  induction cands generalizing acc with
  | nil => exact Or.inl ha
  | cons c rest ih =>
      simp only [submitCandidates, List.foldl_cons] at ha
      rcases ih _ ha with h | h
      · exact addAlert_mem now pid c.1 c.2 team acc.1 acc.2 a h
      · exact Or.inr h

theorem detectAnomalies_mem (st : MonitorState) (now : Int) (a : Alert)
    (ha : a ∈ (detectAnomalies st now).1) :
    ∃ pm, pm ∈ st.metrics ∧ a.pipeline_id = pm.1 ∧
      ¬ pm.2.total_executions < 5 := by
  have key : ∀ (l : List (String × Metrics))
      (acc : List Alert × (String → List Alert)),
      a ∈ (l.foldl
        (fun acc pm =>
          if pm.2.total_executions < 5 then acc
          else submitCandidates now pm.1 pm.2.team
            (detectForPipeline now pm.1 pm.2) acc) acc).1 →
      a ∈ acc.1 ∨ ∃ pm, pm ∈ l ∧ a.pipeline_id = pm.1 ∧
        ¬ pm.2.total_executions < 5 := by
    intro l
    induction l with
    | nil => exact fun acc h => Or.inl h
    | cons pm rest ih =>
        intro acc h
        simp only [List.foldl_cons] at h
        by_cases hskip : pm.2.total_executions < 5
        · rw [if_pos hskip] at h
          rcases ih acc h with h1 | ⟨pm', hmem, hp⟩
          · exact Or.inl h1
          · exact Or.inr ⟨pm', List.mem_cons_of_mem _ hmem, hp⟩
        · rw [if_neg hskip] at h
          rcases ih _ h with h1 | ⟨pm', hmem, hp⟩
          · rcases submitCandidates_mem now pm.1 pm.2.team _ _ a h1 with
              h2 | h2
            · exact Or.inl h2
            · exact Or.inr ⟨pm, List.mem_cons_self _ _, h2, hskip⟩
          · exact Or.inr ⟨pm', List.mem_cons_of_mem _ hmem, hp⟩
  rcases key st.metrics ([], st.alertHistory) ha with h | h
  · cases h
  · exact h

/-- C2: a pipeline with fewer than 5 total executions is skipped by every
detector: `detect_anomalies` never emits an alert carrying its id. -/
theorem claim2_insufficient_sample_skipped (st : MonitorState) (now : Int)
    (pid : String)
    (h : ∀ m, (pid, m) ∈ st.metrics → m.total_executions < 5) :
    ∀ a ∈ (detectAnomalies st now).1, a.pipeline_id ≠ pid := by
  intro a ha hpid
  obtain ⟨⟨pk, pmm⟩, hmem, hape, hge⟩ := detectAnomalies_mem st now a ha
  have hk : pk = pid := by
    simp only at hape
    rw [← hape, hpid]
  subst hk
  exact hge (h pmm hmem)

theorem claim2_witness :
    (∀ m, ("p", m) ∈ (ingestAll [exW]).metrics → m.total_executions < 5) ∧
    (∀ a ∈ (detectAnomalies (ingestAll [exW]) 2000).1,
      a.pipeline_id ≠ "p") :=
  have h : ∀ m, ("p", m) ∈ (ingestAll [exW]).metrics →
      m.total_executions < 5 := by
    intro m hm
    have hm' : ("p", m) ∈ [("p", mW1)] := hm
    have := List.mem_singleton.mp hm'
    injection this with h1 h2
    rw [h2]
    decide
  ⟨h, claim2_insufficient_sample_skipped (ingestAll [exW]) 2000 "p" h⟩

/-! ## Duration z-score bridge -/

/-- For a positive variance `v` and non-negative threshold `c`, the squared
comparison used in `durationAlerts` is exactly the source's real-valued
comparison `c < |dev| / sqrt v`. -/
theorem sq_compare_sqrt (dev v c : ℚ) (hv : 0 < v) (hc : 0 ≤ c) :
    (c ^ 2 * v < dev ^ 2) ↔
      ((c : ℝ) < |(dev : ℝ)| / Real.sqrt (v : ℝ)) := by
  have hv' : (0 : ℝ) < (v : ℝ) := by exact_mod_cast hv
  have hs : 0 < Real.sqrt (v : ℝ) := Real.sqrt_pos.mpr hv'
  have hss : Real.sqrt (v : ℝ) ^ 2 = (v : ℝ) := Real.sq_sqrt hv'.le
  have hc' : (0 : ℝ) ≤ (c : ℝ) := by exact_mod_cast hc
  rw [lt_div_iff hs]
  constructor
  · intro h
    have h' : (c : ℝ) ^ 2 * (v : ℝ) < (dev : ℝ) ^ 2 := by exact_mod_cast h
    by_contra hn
    push_neg at hn
    have h1 : |(dev : ℝ)| ^ 2 ≤ ((c : ℝ) * Real.sqrt (v : ℝ)) ^ 2 :=
      pow_le_pow_left (abs_nonneg _) hn 2
    rw [sq_abs, mul_pow, hss] at h1
    linarith
  · intro h
    have h0 : 0 ≤ (c : ℝ) * Real.sqrt (v : ℝ) := mul_nonneg hc' hs.le
    have h1 : ((c : ℝ) * Real.sqrt (v : ℝ)) ^ 2 < |(dev : ℝ)| ^ 2 :=
      pow_lt_pow_left h h0 (by omega)
    rw [sq_abs, mul_pow, hss] at h1
    exact_mod_cast h1

/-- C5: for an eligible pipeline with at least 5 duration samples, the
duration detector is silent when the window's sample standard deviation is
zero; otherwise, with `z = |latest - mean| / stdev` computed over the window,
it produces exactly one candidate alert iff `z` exceeds the configured
threshold 2, with severity High iff `z > 3` (Medium otherwise), and the
alert message carries the latest duration and the z value (as its square). -/
theorem claim5_duration_detector (m : Metrics)
    (helig : 5 ≤ m.total_executions) (h5 : 5 ≤ m.durations.length) :
    (sampleVarQ m.durations = 0 → durationAlerts m = []) ∧
    (0 < sampleVarQ m.durations →
      ∀ z : ℝ,
        z = |((((durLatest m : ℚ) - durMean m) : ℚ) : ℝ)| /
          Real.sqrt ((sampleVarQ m.durations : ℚ) : ℝ) →
        ((durationAlerts m ≠ []) ↔ (2 : ℝ) < z) ∧
        ((2 : ℝ) < z →
          durationAlerts m =
            [(if (3 : ℝ) < z then AlertSeverity.high else AlertSeverity.medium,
              Msg.abnormalDuration (durLatest m)
                (((durLatest m : ℚ) - durMean m) ^ 2 /
                  sampleVarQ m.durations))]) ∧
        ((((((durLatest m : ℚ) - durMean m) ^ 2 /
            sampleVarQ m.durations) : ℚ) : ℝ) = z ^ 2)) := by
  constructor
  · intro hv0
    simp only [durationAlerts, if_pos h5, hv0, lt_irrefl, if_false]
  · intro hv z hz
    have hbr2 := sq_compare_sqrt ((durLatest m : ℚ) - durMean m)
      (sampleVarQ m.durations) 2 hv (by norm_num)
    have hbr3 := sq_compare_sqrt ((durLatest m : ℚ) - durMean m)
      (sampleVarQ m.durations) 3 hv (by norm_num)
    rw [← hz] at hbr2 hbr3
    have hth : defaultThresholds.durationStdDev = 2 := rfl
    refine ⟨?_, ?_, ?_⟩
    · simp only [durationAlerts, if_pos h5, if_pos hv, hth]
      by_cases hfire : (2 : ℚ) ^ 2 * sampleVarQ m.durations <
          ((durLatest m : ℚ) - durMean m) ^ 2
      · simp only [if_pos hfire]
        simp only [ne_eq, List.cons_ne_nil, not_false_eq_true, true_iff]
        exact hbr2.mp hfire
      · simp only [if_neg hfire]
        simp only [ne_eq, not_true_eq_false, false_iff, not_lt]
        exact not_lt.mp (fun hc => hfire (hbr2.mpr hc))
    · intro h2z
      have hfire := hbr2.mpr h2z
      simp only [durationAlerts, if_pos h5, if_pos hv, hth, if_pos hfire]
      by_cases h3z : (3 : ℝ) < z
      · rw [if_pos (hbr3.mpr h3z), if_pos h3z]
      · rw [if_neg (fun hc => h3z (hbr3.mp hc)), if_neg h3z]
    · have hv' : (0 : ℝ) < ((sampleVarQ m.durations : ℚ) : ℝ) := by
        exact_mod_cast hv
      have hss : Real.sqrt ((sampleVarQ m.durations : ℚ) : ℝ) ^ 2 =
          ((sampleVarQ m.durations : ℚ) : ℝ) := Real.sq_sqrt hv'.le
      rw [hz, div_pow, sq_abs, hss]
      push_cast
      ring

/-- Duration window of the spec's z-score scenario: ten samples
`[10, ..., 10, 100]`. -/
def mW2 : Metrics :=
  { Metrics.base with
    durations := [10, 10, 10, 10, 10, 10, 10, 10, 10, 100]
    total_executions := 10 }

theorem claim5_witness :
    (5 ≤ mW2.total_executions ∧ 5 ≤ mW2.durations.length ∧
      0 < sampleVarQ mW2.durations) ∧
    ((durationAlerts mW2 ≠ []) ↔
      (2 : ℝ) < |((((durLatest mW2 : ℚ) - durMean mW2) : ℚ) : ℝ)| /
        Real.sqrt ((sampleVarQ mW2.durations : ℚ) : ℝ)) := by
  have h1 : (5 : ℕ) ≤ mW2.total_executions := by decide
  have h2 : (5 : ℕ) ≤ mW2.durations.length := by decide
  have hv : 0 < sampleVarQ mW2.durations := by
    norm_num [sampleVarQ, listMean, mW2, Metrics.base]
  exact ⟨⟨h1, h2, hv⟩, ((claim5_duration_detector mW2 h1 h2).2 hv _ rfl).1⟩

/-- C6: for an eligible pipeline (≥ 5 total executions, hence ≥ 2 stored
start times, so the detector's fewer-than-2-timestamps default is
unreachable), the schedule-drift detector computes the consecutive
inter-arrival gaps in hours over the last 10 stored start times in append
order, fires High "delayed" exactly when the average gap exceeds 25 hours,
and separately fires High "missing" exactly when the time since
`last_execution` exceeds 1.5 times the average gap; a pipeline whose id does
not contain "report" (case-insensitively) never produces schedule-drift
alerts. -/
theorem claim6_schedule_drift (rs : List Execution) (pid : String)
    (m : Metrics) (now : Int)
    (hm : alookup pid (ingestAll rs).metrics = some m)
    (helig : 5 ≤ m.total_executions) :
    (containsReport pid = false → scheduleAlerts now pid m = []) ∧
    (containsReport pid = true →
      ∀ gaps : List ℚ,
        gaps = ((lastN 10 m.execution_times).zip
          (lastN 10 m.execution_times).tail).map
            (fun p => ((p.2 - p.1 : Int) : ℚ) / 3600) →
        gaps ≠ [] ∧
        ∃ tl, m.last_execution = some tl ∧
          scheduleAlerts now pid m =
            (if 25 < listMean gaps then
              [(AlertSeverity.high, Msg.reportDelayed (listMean gaps))]
             else []) ++
            (if listMean gaps * (3 / 2) < ((now - tl : Int) : ℚ) / 3600 then
              [(AlertSeverity.high,
                Msg.missingReport (((now - tl : Int) : ℚ) / 3600))]
             else [])) := by
  obtain ⟨htot, -, -, -, -, -, htimes, -, -, hlast, -⟩ :=
    ingest_lookup_spec rs pid m hm
  constructor
  · intro hcr
    simp [scheduleAlerts, hcr]
  · intro hcr gaps hgaps
    have hreclen : 5 ≤ (pipelineRecs pid rs).length := htot ▸ helig
    have htlen : 5 ≤ m.execution_times.length := by
      rw [htimes, lastN_length, List.length_map]
      omega
    have hrecent : 2 ≤ (lastN 10 m.execution_times).length := by
      rw [lastN_length]
      omega
    have hgapslen : 0 < gaps.length := by
      rw [hgaps, List.length_map, List.length_zip, List.length_tail]
      omega
    have hgapsne : gaps ≠ [] := by
      intro hc
      rw [hc] at hgapslen
      simp at hgapslen
    have hrne : (pipelineRecs pid rs).map Execution.start_time ≠ [] := by
      intro hc
      have := congrArg List.length hc
      simp only [List.length_map, List.length_nil] at this
      omega
    obtain ⟨tl, htl⟩ := Option.isSome_iff_exists.mp
      ((List.getLast?_isSome).mpr hrne)
    refine ⟨hgapsne, tl, by rw [hlast, htl], ?_⟩
    simp only [scheduleAlerts, hcr, if_true, if_pos hrecent, ← hgaps,
      if_neg hgapsne, hlast, htl]

/-- One run of the spec's "report-daily every 30 hours" scenario. -/
def repExec (i : Int) : Execution :=
  { execution_id := "r", pipeline_id := "report-daily", status := .success
    start_time := i * 108000, end_time := none, duration := 10
    records_processed := 5, team := "t" }

/-- Five such runs, 30 hours apart. -/
def repRecords : List Execution :=
  [repExec 0, repExec 1, repExec 2, repExec 3, repExec 4]

/-- The metrics entry of `report-daily` after ingesting `repRecords`. -/
def mW3 : Metrics :=
  (alookup "report-daily" (ingestAll repRecords).metrics).getD Metrics.base

theorem claim6_witness :
    (alookup "report-daily" (ingestAll repRecords).metrics = some mW3 ∧
      5 ≤ mW3.total_executions ∧ containsReport "report-daily" = true) ∧
    ((lastN 10 mW3.execution_times).zip
        (lastN 10 mW3.execution_times).tail).map
      (fun p => ((p.2 - p.1 : Int) : ℚ) / 3600) ≠ [] := by
  have hm : alookup "report-daily" (ingestAll repRecords).metrics = some mW3 :=
    rfl
  have h5 : 5 ≤ mW3.total_executions := by decide
  have hcr : containsReport "report-daily" = true := by decide
  have h := (claim6_schedule_drift repRecords "report-daily" mW3 1000000 hm
    h5).2 hcr _ rfl
  exact ⟨⟨hm, h5, hcr⟩, h.1⟩

/-! ## Team aggregation lemmas -/

theorem foldl_bumpAgg (ms : List Metrics) (a : TeamAgg) :
    ms.foldl bumpAgg a =
      { total_pipelines := a.total_pipelines + ms.length
        total_executions :=
          a.total_executions + (ms.map Metrics.total_executions).sum
        successful_executions :=
          a.successful_executions + (ms.map Metrics.successful_executions).sum
        failed_executions :=
          a.failed_executions + (ms.map Metrics.failed_executions).sum
        avg_success_rate := a.avg_success_rate } := by
  induction ms generalizing a with
  | nil => simp
  | cons m rest ih =>
      rw [List.foldl_cons, ih]
      simp only [bumpAgg, List.map_cons, List.sum_cons, List.length_cons]
      congr 1 <;> omega

theorem teamFold_lookup (l : List (String × Metrics))
    (acc : List (String × TeamAgg)) (t : String) :
    alookup t (l.foldl
      (fun acc pm => assocUpdateD acc pm.2.team TeamAgg.base
        (fun a => bumpAgg a pm.2)) acc) =
      match alookup t acc with
      | some a =>
          some (((l.map Prod.snd).filter
            (fun m => decide (m.team = t))).foldl bumpAgg a)
      | none =>
          if ((l.map Prod.snd).filter (fun m => decide (m.team = t))) = []
          then none
          else some (((l.map Prod.snd).filter
            (fun m => decide (m.team = t))).foldl bumpAgg TeamAgg.base) := by
  induction l generalizing acc with
  | nil =>
      cases h : alookup t acc <;> simp [h]
  | cons pm rest ih =>
      rw [List.foldl_cons, ih]
      by_cases ht : pm.2.team = t
      · rw [← ht, alookup_assocUpdateD_self, ht]
        simp only [List.map_cons, List.filter_cons, ht]
        cases h : alookup t acc with
        | some a => simp [h]
        | none => simp [h]
      · have hne : t ≠ pm.2.team := fun hc => ht hc.symm
        rw [alookup_assocUpdateD_ne _ _ _ _ _ hne]
        have hf : List.filter (fun m => decide (m.team = t))
            (pm.2 :: List.map Prod.snd rest) =
            List.filter (fun m => decide (m.team = t))
              (List.map Prod.snd rest) :=
          List.filter_cons_of_neg (by simpa using ht)
        rw [List.map_cons, hf]

theorem alookup_map_val {β γ : Type} (g : β → γ) (l : List (String × β))
    (k : String) :
    alookup k (l.map (fun p => (p.1, g p.2))) = (alookup k l).map g := by
  induction l with
  | nil => rfl
  | cons p rest ih =>
      by_cases h : p.1 = k <;> simp [alookup, h, ih]

/-- C7: `team_metrics` returns, per team, the pipeline count and the sums of
the per-pipeline execution counters over exactly the pipelines whose stored
team is that team, with `avg_success_rate` the aggregate ratio of summed
successes to summed totals times 100 (0 on a zero denominator) — not the mean
of per-pipeline rates. -/
theorem claim7_team_metrics (st : MonitorState) (t : String) :
    alookup t (getTeamMetrics st) =
      (if ((st.metrics.map Prod.snd).filter
          (fun m => decide (m.team = t))) = [] then none
       else
        some
          { total_pipelines :=
              ((st.metrics.map Prod.snd).filter
                (fun m => decide (m.team = t))).length
            total_executions :=
              (((st.metrics.map Prod.snd).filter
                (fun m => decide (m.team = t))).map
                  Metrics.total_executions).sum
            successful_executions :=
              (((st.metrics.map Prod.snd).filter
                (fun m => decide (m.team = t))).map
                  Metrics.successful_executions).sum
            failed_executions :=
              (((st.metrics.map Prod.snd).filter
                (fun m => decide (m.team = t))).map
                  Metrics.failed_executions).sum
            avg_success_rate :=
              if 0 < (((st.metrics.map Prod.snd).filter
                  (fun m => decide (m.team = t))).map
                    Metrics.total_executions).sum then
                (((((st.metrics.map Prod.snd).filter
                    (fun m => decide (m.team = t))).map
                      Metrics.successful_executions).sum : ℚ) /
                  ((((st.metrics.map Prod.snd).filter
                    (fun m => decide (m.team = t))).map
                      Metrics.total_executions).sum : ℚ)) * 100
              else 0 }) := by
  unfold getTeamMetrics
  rw [alookup_map_val finalizeAgg, teamFold_lookup]
  simp only [alookup]
  by_cases h : ((st.metrics.map Prod.snd).filter
      (fun m => decide (m.team = t))) = []
  · simp [h]
  · rw [if_neg h, if_neg h, Option.map_some', foldl_bumpAgg]
    simp [finalizeAgg, TeamAgg.base]

/-! ## Deduplicator analysis -/

/-- Three identical candidates for one pipeline at times 0 s, 3599 s and
7198 s: the second falls within one hour of the first and is suppressed; by
the time of the third, the first has aged out of the pruned history, so the
third is emitted although it lies within one hour of the (dropped) second. -/
def cexSubs : List Submission :=
  [{ now := 0, pid := "p", severity := .high
     message := .lowSuccessRate 40, team := "t" },
   { now := 3599, pid := "p", severity := .high
     message := .lowSuccessRate 40, team := "t" },
   { now := 7198, pid := "p", severity := .high
     message := .lowSuccessRate 40, team := "t" }]

/-- C1 counterexample: the pairwise form of the claim — "of every two
identical candidates submitted within one hour of each other, only the first
is appended and the second is dropped" — is false.  Submissions 2 and 3 of
`cexSubs` are identical in pipeline, severity and message and lie 3599 s
apart (within one hour), yet the emitted stream is exactly the alerts stamped
0 and 7198: the first of that pair was dropped and the second was emitted. -/
theorem claim1_counterexample :
    ((cexSubs.get ⟨2, by decide⟩).now - (cexSubs.get ⟨1, by decide⟩).now
        < 3600 ∧
      (cexSubs.get ⟨1, by decide⟩).pid = (cexSubs.get ⟨2, by decide⟩).pid ∧
      (cexSubs.get ⟨1, by decide⟩).severity =
        (cexSubs.get ⟨2, by decide⟩).severity ∧
      (cexSubs.get ⟨1, by decide⟩).message =
        (cexSubs.get ⟨2, by decide⟩).message) ∧
    (runSubmissions cexSubs).1.map Alert.timestamp = [0, 7198] := by
  decide

/-- Invariant threaded through a submission sequence: the stored history only
holds emitted alerts filed under their own pipeline; every emitted alert is
either still in its pipeline's history or at least an hour old; emitted
timestamps never exceed the clock; and the emitted stream satisfies the
dedup guarantee pairwise. -/
def DedupInv (t : Int) (out : List Alert) (hist : String → List Alert) :
    Prop :=
  (∀ pid a, a ∈ hist pid → a ∈ out ∧ a.pipeline_id = pid) ∧
  (∀ a ∈ out, a ∈ hist a.pipeline_id ∨ 3600 ≤ t - a.timestamp) ∧
  (∀ a ∈ out, a.timestamp ≤ t) ∧
  out.Pairwise (fun a b => a.pipeline_id = b.pipeline_id →
    a.severity = b.severity → a.message = b.message →
    3600 ≤ b.timestamp - a.timestamp)

theorem addAlert_inv (t t' : Int) (pid : String) (sev : AlertSeverity)
    (msg : Msg) (team : String) (out : List Alert)
    (hist : String → List Alert) (hinv : DedupInv t out hist)
    (hmono : t ≤ t') :
    DedupInv t' (addAlert t' pid sev msg team out hist).1
      (addAlert t' pid sev msg team out hist).2 := by
  obtain ⟨hsub, houth, hts, hpw⟩ := hinv
  by_cases hsup : ((hist pid).filter
      (fun a => decide (t' - a.timestamp < 3600))).any
      (fun a => decide (a.severity = sev ∧ a.message = msg)) = true
  · have heq : addAlert t' pid sev msg team out hist = (out, hist) := by
      simp only [addAlert, hsup, if_true]
    rw [heq]
    refine ⟨hsub, ?_, ?_, hpw⟩
    · intro a ha
      rcases houth a ha with h | h
      · exact Or.inl h
      · exact Or.inr (by omega)
    · intro a ha
      have := hts a ha
      omega
  · have heq : addAlert t' pid sev msg team out hist =
        (out ++ [{ pipeline_id := pid, severity := sev, message := msg
                   team := team, timestamp := t' }],
         fun p => if p = pid then
            ((hist pid).filter (fun a => decide (t' - a.timestamp < 3600))) ++
              [{ pipeline_id := pid, severity := sev, message := msg
                 team := team, timestamp := t' }]
          else hist p) := by
      simp only [addAlert, hsup, if_false, Bool.false_eq_true]
    rw [heq]
    dsimp only
    refine ⟨?_, ?_, ?_, ?_⟩
    · intro p a ha
      by_cases hp : p = pid
      · subst hp
        simp only [if_pos rfl] at ha
        rcases List.mem_append.mp ha with h | h
        · have h2 := List.mem_filter.mp h
          obtain ⟨h3, h4⟩ := hsub p a h2.1
          exact ⟨List.mem_append_left _ h3, h4⟩
        · rw [List.mem_singleton.mp h]
          exact ⟨List.mem_append_right _ (List.mem_singleton.mpr rfl), rfl⟩
      · simp only [if_neg hp] at ha
        obtain ⟨h3, h4⟩ := hsub p a ha
        exact ⟨List.mem_append_left _ h3, h4⟩
    · intro a ha
      rcases List.mem_append.mp ha with h | h
      · rcases houth a h with h2 | h2
        · by_cases hp : a.pipeline_id = pid
          · by_cases hrecent : t' - a.timestamp < 3600
            · left
              dsimp only
              rw [hp, if_pos rfl]
              apply List.mem_append_left
              apply List.mem_filter.mpr
              rw [← hp]
              exact ⟨h2, by simpa using hrecent⟩
            · right
              omega
          · left
            dsimp only
            rw [if_neg hp]
            exact h2
        · right
          omega
      · left
        rw [List.mem_singleton.mp h]
        dsimp only
        rw [if_pos rfl]
        exact List.mem_append_right _ (List.mem_singleton.mpr rfl)
    · intro a ha
      rcases List.mem_append.mp ha with h | h
      · have := hts a h
        omega
      · rw [List.mem_singleton.mp h]
    · rw [List.pairwise_append]
      refine ⟨hpw, List.pairwise_singleton _ _, ?_⟩
      intro a ha b hb hpid hsev hmsg
      rw [List.mem_singleton.mp hb]
      simp only
      rw [List.mem_singleton.mp hb] at hpid hsev hmsg
      simp only at hpid hsev hmsg
      rcases houth a ha with h2 | h2
      · by_contra hlt
        push_neg at hlt
        apply hsup
        apply List.any_eq_true.mpr
        refine ⟨a, ?_, ?_⟩
        · apply List.mem_filter.mpr
          rw [hpid] at h2
          refine ⟨h2, ?_⟩
          simp only [decide_eq_true_eq]
          have := hts a ha
          omega
        · simp only [decide_eq_true_eq]
          exact ⟨hsev, hmsg⟩
      · omega

theorem runSubsFrom_inv (subs : List Submission) (t : Int)
    (acc : List Alert × (String → List Alert))
    (hinv : DedupInv t acc.1 acc.2)
    (hmono : List.Chain' (· ≤ ·) (t :: subs.map Submission.now)) :
    ∃ t'', DedupInv t'' (runSubsFrom acc subs).1 (runSubsFrom acc subs).2 := by
  induction subs generalizing t acc with
  | nil => exact ⟨t, hinv⟩
  | cons s rest ih =>
      rw [List.map_cons] at hmono
      have hts : t ≤ s.now := (List.chain'_cons.mp hmono).1
      have hchain := (List.chain'_cons.mp hmono).2
      have hstep := addAlert_inv t s.now s.pid s.severity s.message s.team
        acc.1 acc.2 hinv hts
      exact ih s.now _ hstep hchain

/-- C1 (amended): assuming the deduplicator's clock readings are
nondecreasing across submissions, the emitted alert stream never contains two
alerts with the same pipeline, severity and message whose timestamps lie
within one rolling one-hour window (their timestamps are at least 3600 s
apart); the original pairwise per-candidate form is refuted by
`claim1_counterexample`. -/
theorem claim1_dedup_guarantee (subs : List Submission)
    (hmono : List.Chain' (· ≤ ·) (subs.map Submission.now)) :
    (runSubmissions subs).1.Pairwise (fun a b =>
      a.pipeline_id = b.pipeline_id → a.severity = b.severity →
      a.message = b.message → 3600 ≤ b.timestamp - a.timestamp) := by
  cases subs with
  | nil => simp [runSubmissions, runSubsFrom]
  | cons s rest =>
      have hinv0 : DedupInv s.now [] (fun _ => []) := by
        refine ⟨?_, ?_, ?_, ?_⟩ <;> simp
      have hchain : List.Chain' (· ≤ ·)
          (s.now :: (s :: rest).map Submission.now) := by
        rw [List.map_cons]
        exact List.chain'_cons.mpr ⟨le_refl _, by rw [← List.map_cons]; exact hmono⟩
      obtain ⟨t'', hinv⟩ := runSubsFrom_inv (s :: rest) s.now
        ([], fun _ => []) hinv0 hchain
      exact hinv.2.2.2

theorem claim1_witness :
    List.Chain' (· ≤ ·) (cexSubs.map Submission.now) ∧
      (runSubmissions cexSubs).1.Pairwise (fun a b =>
        a.pipeline_id = b.pipeline_id → a.severity = b.severity →
        a.message = b.message → 3600 ≤ b.timestamp - a.timestamp) := by
  have hch : List.Chain' (· ≤ ·) (cexSubs.map Submission.now) := by
    show List.Chain' (· ≤ ·) ([0, 3599, 7198] : List Int)
    refine List.chain'_cons.mpr ⟨by norm_num,
      List.chain'_cons.mpr ⟨by norm_num, ?_⟩⟩
    exact List.chain'_singleton _
  exact ⟨hch, claim1_dedup_guarantee cexSubs hch⟩
